import Mathlib

/-!
Verification development for the HALP credential system (TypeScript sources).

Shallow embedding conventions:
* `bigint` values are `Nat` (all values in the source are non-negative).
* The Poseidon hash comes from the external `circomlibjs` library, and the
  Groth16 verifier comes from the external `snarkjs` library; both are
  therefore modelled as explicit function parameters of the embedded code.
* Hex strings that are only ever parsed back to numbers are modelled by the
  numbers themselves (`hexToBigInt` / `bigIntToHex` in the source form an
  injective encoding); strings whose text matters (challenge ids, proof
  component strings, format checks) are modelled as `String`.
* Fallible HTTP fetches are modelled as `Except Unit` values supplied by the
  environment.
-/

namespace Registry

/-- Leaf of the indexed Merkle tree: `{ value, nextValue, nextIdx }`
(`IndexedLeaf` in `registry-service`). -/
structure IndexedLeaf where
  value : Nat
  nextValue : Nat
  nextIdx : Nat
  deriving Repr, DecidableEq

/-- Default leaf used for out-of-range reads (never reached on the paths the
source exercises). -/
def dLeaf : IndexedLeaf := ⟨0, 0, 0⟩

/-- State of the `IndexedMerkleTree` class that the claims depend on: the
leaf array and the `nullifierIndex` map (value ↦ leaf index).  The cached
hash levels (`this.tree`) are derived data rebuilt after every insertion and
play no role in the claims, so they are not part of the state. -/
structure TreeState where
  leaves : List IndexedLeaf
  index : List (Nat × Nat)
  deriving Repr, DecidableEq

/-- Initial tree state from `initializeEmptyTree`: a single head leaf
`{value: 0, nextValue: 0, nextIdx: 0}` and an empty nullifier index. -/
def emptyTreeState : TreeState := ⟨[⟨0, 0, 0⟩], []⟩

/-- Lookup in the `nullifierIndex` map (`Map.has` / `Map.get`). -/
def indexLookup (idx : List (Nat × Nat)) (v : Nat) : Option Nat :=
  match idx.find? (fun p => p.fst == v) with
  | some p => some p.snd
  | none => none

/-- Value of the leaf at index `i` (`leaves[i].value`). -/
def valueAt (ls : List IndexedLeaf) (i : Nat) : Nat := (ls.getD i dLeaf).value

/-- Successor pointer of the leaf at index `i` (`leaves[i].nextIdx`). -/
def nextIdxAt (ls : List IndexedLeaf) (i : Nat) : Nat := (ls.getD i dLeaf).nextIdx

/-- Loop body of the predecessor scan in `addLeaf`: move the candidate to
`i` whenever `leaves[i].value < v` and `leaves[i].value` exceeds the current
candidate's value. -/
def predStep (ls : List IndexedLeaf) (v p i : Nat) : Nat :=
  if valueAt ls i < v ∧ valueAt ls p < valueAt ls i then i else p

/-- Predecessor scan of `addLeaf`, starting from index 0. -/
def findPred (ls : List IndexedLeaf) (v : Nat) : Nat :=
  (List.range ls.length).foldl (predStep ls v) 0

/-- The `addLeaf` method.  If the value is already in the `nullifierIndex`
it returns the existing index and leaves the state untouched; otherwise it
splices a new leaf after the predecessor in the sorted linked list. -/
def addLeaf (s : TreeState) (v : Nat) : Nat × TreeState :=
  match indexLookup s.index v with
  | some i => (i, s)
  | none =>
    let p := findPred s.leaves v
    let newIdx := s.leaves.length
    let pl := s.leaves.getD p dLeaf
    let newLeaf : IndexedLeaf := ⟨v, pl.nextValue, pl.nextIdx⟩
    let leaves' := (s.leaves.set p ⟨pl.value, v, newIdx⟩) ++ [newLeaf]
    (newIdx, ⟨leaves', (v, newIdx) :: s.index⟩)

/-- Folding `addLeaf` over a list of values, keeping only the state. -/
def insertAll (s : TreeState) (vs : List Nat) : TreeState :=
  vs.foldl (fun s v => (addLeaf s v).2) s

/-- Merkle proof payload of `verifyProof` (hex strings parsed to numbers). -/
structure MerkleProofData where
  root : Nat
  siblings : List Nat
  pathIndices : List Nat
  deriving Repr, DecidableEq

/-- Path folding loop of `verifyProof`: for each sibling, hash on the side
selected by `pathIndices[i]`; a missing path index compares unequal to `0`
in the source and therefore selects the right branch, which the default
value `1` reproduces. -/
def foldPath (h2 : Nat → Nat → Nat) : Nat → List Nat → List Nat → Nat
  | cur, [], _ => cur
  | cur, sib :: sibs, pis =>
    foldPath h2 (if pis.headD 1 = 0 then h2 cur sib else h2 sib cur) sibs pis.tail

/-- The `verifyProof` method of `IndexedMerkleTree`: the supplied leaf value
is folded up the path directly and compared with `proof.root`. -/
def mtVerifyProof (h2 : Nat → Nat → Nat) (leaf : Nat) (pr : MerkleProofData) : Bool :=
  foldPath h2 leaf pr.siblings pr.pathIndices == pr.root

/-- Verification procedure described by the specification sentence behind
claim C4 (`Modelled from the spec` for comparison only): first rehash
`leaf = Poseidon₃(value, nextValue, nextIdx)`, then fold up the path. -/
def mtVerifyProofClaimed (h2 : Nat → Nat → Nat) (h3 : Nat → Nat → Nat → Nat)
    (value nextValue nextIdx : Nat) (pr : MerkleProofData) : Bool :=
  foldPath h2 (h3 value nextValue nextIdx) pr.siblings pr.pathIndices == pr.root

/-- Reference form of the path fold over the zipped sibling/path-index
lists, used to state the amended claim C4. -/
def foldPathZip (h2 : Nat → Nat → Nat) (leaf : Nat) (l : List (Nat × Nat)) : Nat :=
  l.foldl (fun cur p => if p.2 = 0 then h2 cur p.1 else h2 p.1 cur) leaf

/-- Outcome of the `POST /nullifiers/register` route. -/
inductive RegisterOutcome where
  | conflict409
  | success (treeIndex : Nat) (s' : TreeState)
  deriving Repr, DecidableEq

/-- The `POST /nullifiers/register` route: a duplicate nullifier is rejected
with HTTP 409 before `addLeaf` is ever called. -/
def registerNullifier (s : TreeState) (v : Nat) : RegisterOutcome :=
  if (indexLookup s.index v).isSome then RegisterOutcome.conflict409
  else
    let r := addLeaf s v
    RegisterOutcome.success r.1 r.2

theorem getD_set_self {α : Type} (d x : α) :
    ∀ (ls : List α) (p : Nat), p < ls.length → (ls.set p x).getD p d = x
  | [], _, h => absurd h (by simp)
  | _ :: _, 0, _ => rfl
  | _ :: t, p + 1, h => getD_set_self d x t p (by simpa using h)

theorem getD_set_ne {α : Type} (d x : α) :
    ∀ (ls : List α) (p k : Nat), k ≠ p → (ls.set p x).getD k d = ls.getD k d
  | [], _, _, _ => rfl
  | _ :: _, 0, 0, h => absurd rfl h
  | _ :: _, 0, _ + 1, _ => rfl
  | _ :: _, _ + 1, 0, _ => rfl
  | _ :: t, p + 1, k + 1, h => getD_set_ne d x t p k (fun e => h (by rw [e]))

theorem getD_append_left {α : Type} (d : α) :
    ∀ (ls more : List α) (k : Nat), k < ls.length → (ls ++ more).getD k d = ls.getD k d
  | [], _, _, h => absurd h (by simp)
  | _ :: _, _, 0, _ => rfl
  | _ :: t, more, k + 1, h => getD_append_left d t more k (by simpa using h)

theorem getD_append_length {α : Type} (d y : α) :
    ∀ ls : List α, (ls ++ [y]).getD ls.length d = y
  | [] => rfl
  | _ :: t => getD_append_length d y t

theorem predStep_fold_spec (ls : List IndexedLeaf) (v : Nat) :
    ∀ (l : List Nat) (p : Nat), valueAt ls p < v →
      valueAt ls (l.foldl (predStep ls v) p) < v ∧
      valueAt ls p ≤ valueAt ls (l.foldl (predStep ls v) p) ∧
      (l.foldl (predStep ls v) p = p ∨ l.foldl (predStep ls v) p ∈ l) ∧
      ∀ i ∈ l, valueAt ls i < v → valueAt ls i ≤ valueAt ls (l.foldl (predStep ls v) p)
  | [], p, hp => ⟨hp, le_refl _, Or.inl rfl, by simp⟩
  | i :: l, p, hp => by
    simp only [List.foldl_cons]
    by_cases hc : valueAt ls i < v ∧ valueAt ls p < valueAt ls i
    · have hstep : predStep ls v p i = i := by simp [predStep, hc]
      rw [hstep]
      obtain ⟨h1, h2, h3, h4⟩ := predStep_fold_spec ls v l i hc.1
      refine ⟨h1, le_trans (le_of_lt hc.2) h2, ?_, ?_⟩
      · cases h3 with
        | inl h => exact Or.inr (by simp [h])
        | inr h => exact Or.inr (List.mem_cons_of_mem _ h)
      · intro j hj hjv
        cases List.mem_cons.mp hj with
        | inl h => rw [h]; exact h2
        | inr h => exact h4 j h hjv
    · have hstep : predStep ls v p i = p := by simp only [predStep, if_neg hc]
      rw [hstep]
      obtain ⟨h1, h2, h3, h4⟩ := predStep_fold_spec ls v l p hp
      refine ⟨h1, h2, ?_, ?_⟩
      · cases h3 with
        | inl h => exact Or.inl h
        | inr h => exact Or.inr (List.mem_cons_of_mem _ h)
      · intro j hj hjv
        cases List.mem_cons.mp hj with
        | inl h =>
          rw [h]
          rw [h] at hjv
          have hile : valueAt ls i ≤ valueAt ls p := by
            by_contra hlt
            exact hc ⟨hjv, lt_of_not_le hlt⟩
          exact le_trans hile h2
        | inr h => exact h4 j h hjv

theorem findPred_spec (ls : List IndexedLeaf) (v : Nat) (h0 : 0 < ls.length)
    (hhead : valueAt ls 0 = 0) (hv : v ≠ 0) :
    valueAt ls (findPred ls v) < v ∧ findPred ls v < ls.length ∧
      ∀ i < ls.length, valueAt ls i < v → valueAt ls i ≤ valueAt ls (findPred ls v) := by
  have hp0 : valueAt ls 0 < v := by rw [hhead]; exact Nat.pos_of_ne_zero hv
  obtain ⟨h1, h2, h3, h4⟩ := predStep_fold_spec ls v (List.range ls.length) 0 hp0
  refine ⟨h1, ?_, ?_⟩
  · unfold findPred
    cases h3 with
    | inl h => rw [h]; exact h0
    | inr h => exact List.mem_range.mp h
  · intro i hi hiv
    exact h4 i (List.mem_range.mpr hi) hiv

/-- Well-formedness invariant of the tree state: sorted linked-list order,
pointer bounds, pairwise-distinct leaf values, and every key of the
nullifier index being a stored leaf value. -/
structure Good (s : TreeState) : Prop where
  nonempty : 0 < s.leaves.length
  headZero : valueAt s.leaves 0 = 0
  nextLt : ∀ i < s.leaves.length, nextIdxAt s.leaves i < s.leaves.length
  sorted : ∀ i < s.leaves.length,
    valueAt s.leaves i < valueAt s.leaves (nextIdxAt s.leaves i) ∨
      valueAt s.leaves (nextIdxAt s.leaves i) = 0
  distinct : ∀ i j, i < s.leaves.length → j < s.leaves.length → i ≠ j →
    valueAt s.leaves i ≠ valueAt s.leaves j
  indexKeys : ∀ w m, indexLookup s.index w = some m →
    ∃ k, k < s.leaves.length ∧ valueAt s.leaves k = w

theorem indexLookup_cons (w m : Nat) (idx : List (Nat × Nat)) (u : Nat) :
    indexLookup ((w, m) :: idx) u = if w = u then some m else indexLookup idx u := by
  by_cases h : w = u
  · rw [if_pos h]
    unfold indexLookup
    rw [List.find?_cons_of_pos _ (by simp [h])]
  · rw [if_neg h]
    unfold indexLookup
    rw [List.find?_cons_of_neg _ (by simp [h])]

theorem addLeaf_not_found (s : TreeState) (v : Nat) (hg : Good s)
    (hfresh : ∀ k < s.leaves.length, valueAt s.leaves k ≠ v) :
    indexLookup s.index v = none := by
  cases h : indexLookup s.index v with
  | none => rfl
  | some m =>
    obtain ⟨k, hk, hkv⟩ := hg.indexKeys v m h
    exact absurd hkv (hfresh k hk)

theorem addLeaf_eq (s : TreeState) (v : Nat) (h : indexLookup s.index v = none) :
    addLeaf s v =
      (s.leaves.length,
        ⟨(s.leaves.set (findPred s.leaves v)
            ⟨(s.leaves.getD (findPred s.leaves v) dLeaf).value, v, s.leaves.length⟩)
            ++ [⟨v, (s.leaves.getD (findPred s.leaves v) dLeaf).nextValue,
                  (s.leaves.getD (findPred s.leaves v) dLeaf).nextIdx⟩],
          (v, s.leaves.length) :: s.index⟩) := by
  unfold addLeaf
  rw [h]

theorem addLeaf_preserves (s : TreeState) (v : Nat) (hg : Good s) (hv : v ≠ 0)
    (hfresh : ∀ k < s.leaves.length, valueAt s.leaves k ≠ v) :
    Good (addLeaf s v).2 ∧
      (addLeaf s v).2.leaves.length = s.leaves.length + 1 ∧
      (∀ k < s.leaves.length, valueAt (addLeaf s v).2.leaves k = valueAt s.leaves k) ∧
      valueAt (addLeaf s v).2.leaves s.leaves.length = v := by
  have hnone := addLeaf_not_found s v hg hfresh
  obtain ⟨hplt, hpn, hpmax⟩ := findPred_spec s.leaves v hg.nonempty hg.headZero hv
  rw [addLeaf_eq s v hnone]
  set L := s.leaves with hL
  set n := L.length with hn
  set p := findPred L v with hp
  set pl := L.getD p dLeaf with hpl
  set pl' : IndexedLeaf := ⟨pl.value, v, n⟩ with hpl'
  set newLeaf : IndexedLeaf := ⟨v, pl.nextValue, pl.nextIdx⟩ with hnew
  set L' := (L.set p pl') ++ [newLeaf] with hL'
  have hsetlen : (L.set p pl').length = n := by simp
  have hlen' : L'.length = n + 1 := by simp [hL']
  have hgetn : L'.getD n dLeaf = newLeaf := by
    have h := getD_append_length dLeaf newLeaf (L.set p pl')
    rw [hsetlen] at h
    exact h
  have hget_lt : ∀ k, k < n → L'.getD k dLeaf =
      if k = p then pl' else L.getD k dLeaf := by
    intro k hk
    rw [hL', getD_append_left dLeaf _ _ k (by rw [hsetlen]; exact hk)]
    by_cases hkp : k = p
    · rw [if_pos hkp, hkp, getD_set_self dLeaf pl' L p hpn]
    · rw [if_neg hkp, getD_set_ne dLeaf pl' L p k hkp]
  have hval_lt : ∀ k, k < n → valueAt L' k = valueAt L k := by
    intro k hk
    unfold valueAt
    rw [hget_lt k hk]
    by_cases hkp : k = p
    · rw [if_pos hkp, hkp]
    · rw [if_neg hkp]
  have hval_n : valueAt L' n = v := by unfold valueAt; rw [hgetn]
  have hnext_p : nextIdxAt L' p = n := by
    unfold nextIdxAt
    rw [hget_lt p hpn, if_pos rfl]
  have hnext_lt : ∀ k, k < n → k ≠ p → nextIdxAt L' k = nextIdxAt L k := by
    intro k hk hkp
    unfold nextIdxAt
    rw [hget_lt k hk, if_neg hkp]
  have hnext_n : nextIdxAt L' n = nextIdxAt L p := by
    unfold nextIdxAt
    rw [hgetn]
  refine ⟨?_, hlen', hval_lt, hval_n⟩
  refine ⟨?_, ?_, ?_, ?_, ?_, ?_⟩
  · show 0 < L'.length
    rw [hlen']
    exact Nat.succ_pos n
  · show valueAt L' 0 = 0
    rw [hval_lt 0 hg.nonempty]
    exact hg.headZero
  · show ∀ i < L'.length, nextIdxAt L' i < L'.length
    intro i hi
    rw [hlen'] at hi ⊢
    rcases Nat.lt_succ_iff_lt_or_eq.mp hi with hi' | hi'
    · by_cases hip : i = p
      · rw [hip, hnext_p]
        exact Nat.lt_succ_self n
      · rw [hnext_lt i hi' hip]
        exact Nat.lt_succ_of_lt (hg.nextLt i hi')
    · rw [hi', hnext_n]
      exact Nat.lt_succ_of_lt (hg.nextLt p hpn)
  · show ∀ i < L'.length,
        valueAt L' i < valueAt L' (nextIdxAt L' i) ∨ valueAt L' (nextIdxAt L' i) = 0
    intro i hi
    rw [hlen'] at hi
    rcases Nat.lt_succ_iff_lt_or_eq.mp hi with hi' | hi'
    · by_cases hip : i = p
      · left
        rw [hip, hnext_p, hval_n, hval_lt p hpn]
        exact hplt
      · rw [hnext_lt i hi' hip, hval_lt i hi',
          hval_lt (nextIdxAt L i) (hg.nextLt i hi')]
        exact hg.sorted i hi'
    · rw [hi', hnext_n, hval_n, hval_lt (nextIdxAt L p) (hg.nextLt p hpn)]
      have hso : valueAt L p < valueAt L (nextIdxAt L p) ∨
          valueAt L (nextIdxAt L p) = 0 := hg.sorted p hpn
      rcases hso with hso | hso
      · rcases Nat.lt_trichotomy (valueAt L (nextIdxAt L p)) v with ht | ht | ht
        · have hle : valueAt L (nextIdxAt L p) ≤ valueAt L p :=
            hpmax (nextIdxAt L p) (hg.nextLt p hpn) ht
          omega
        · exact absurd ht (hfresh (nextIdxAt L p) (hg.nextLt p hpn))
        · exact Or.inl ht
      · exact Or.inr hso
  · show ∀ i j, i < L'.length → j < L'.length → i ≠ j → valueAt L' i ≠ valueAt L' j
    intro i j hi hj hij
    rw [hlen'] at hi hj
    rcases Nat.lt_succ_iff_lt_or_eq.mp hi with hi' | hi' <;>
      rcases Nat.lt_succ_iff_lt_or_eq.mp hj with hj' | hj'
    · rw [hval_lt i hi', hval_lt j hj']
      exact hg.distinct i j hi' hj' hij
    · rw [hval_lt i hi', hj', hval_n]
      exact hfresh i hi'
    · rw [hval_lt j hj', hi', hval_n]
      exact fun e => hfresh j hj' e.symm
    · exact absurd (hi'.trans hj'.symm) hij
  · show ∀ w m, indexLookup ((v, n) :: s.index) w = some m →
        ∃ k, k < L'.length ∧ valueAt L' k = w
    intro w m hw
    rw [indexLookup_cons] at hw
    by_cases hvw : v = w
    · refine ⟨n, ?_, ?_⟩
      · rw [hlen']
        exact Nat.lt_succ_self n
      · rw [hval_n]
        exact hvw
    · rw [if_neg hvw] at hw
      obtain ⟨k, hk, hkw⟩ := hg.indexKeys w m hw
      refine ⟨k, ?_, ?_⟩
      · rw [hlen']
        exact Nat.lt_succ_of_lt hk
      · rw [hval_lt k hk]
        exact hkw

theorem emptyTreeState_good : Good emptyTreeState := by
  refine ⟨by decide, by decide, ?_, ?_, ?_, ?_⟩
  · intro i hi
    have h1 : emptyTreeState.leaves.length = 1 := rfl
    rw [h1] at hi ⊢
    have : i = 0 := by omega
    subst this
    decide
  · intro i hi
    have h1 : emptyTreeState.leaves.length = 1 := rfl
    rw [h1] at hi
    have : i = 0 := by omega
    subst this
    right
    decide
  · intro i j hi hj hij
    have h1 : emptyTreeState.leaves.length = 1 := rfl
    rw [h1] at hi hj
    omega
  · intro w m hw
    have h0 : indexLookup emptyTreeState.index w = none := rfl
    rw [h0] at hw
    exact Option.noConfusion hw

theorem insertAll_good : ∀ (vs : List Nat) (s : TreeState), Good s →
    (∀ v ∈ vs, v ≠ 0) →
    (∀ v ∈ vs, ∀ k < s.leaves.length, valueAt s.leaves k ≠ v) →
    vs.Nodup → Good (insertAll s vs)
  | [], _, hg, _, _, _ => hg
  | v :: vs, s, hg, hnz, hfresh, hnd => by
    have hv : v ≠ 0 := hnz v (List.mem_cons_self v vs)
    have hf : ∀ k < s.leaves.length, valueAt s.leaves k ≠ v :=
      hfresh v (List.mem_cons_self v vs)
    obtain ⟨hg', hlen', hvals, hvn⟩ := addLeaf_preserves s v hg hv hf
    have hstep : insertAll s (v :: vs) = insertAll (addLeaf s v).2 vs := rfl
    rw [hstep]
    refine insertAll_good vs (addLeaf s v).2 hg' ?_ ?_ (List.Nodup.of_cons hnd)
    · intro w hw
      exact hnz w (List.mem_cons_of_mem v hw)
    · intro w hw k hk
      rw [hlen'] at hk
      rcases Nat.lt_succ_iff_lt_or_eq.mp hk with hk' | hk'
      · rw [hvals k hk']
        exact hfresh w (List.mem_cons_of_mem v hw) k hk'
      · rw [hk', hvn]
        intro e
        subst e
        exact (List.nodup_cons.mp hnd).1 hw

theorem foldPath_eq_zip (h2 : Nat → Nat → Nat) :
    ∀ (sibs pis : List Nat) (cur : Nat), pis.length = sibs.length →
      foldPath h2 cur sibs pis = foldPathZip h2 cur (sibs.zip pis)
  | [], _, _, _ => rfl
  | s :: ss, [], _, h => by simp at h
  | s :: ss, q :: qs, cur, h => by
    simp only [List.length_cons, Nat.succ.injEq] at h
    simp only [foldPath, foldPathZip, List.zip_cons_cons, List.foldl_cons,
      List.headD_cons, List.tail_cons]
    exact foldPath_eq_zip h2 ss qs _ h

end Registry

/-- C4: the claim states that `verifyProof(value, proof)` first recomputes
`leaf = Poseidon₃(value, nextValue, nextIdx)` and folds that hash up the
path.  The source folds the supplied leaf value up the path directly and
never rehashes it, so on a proof with an empty path and `root = value` the
source accepts while the claimed procedure (which would compare
`Poseidon₃(value, 0, 0)` against `root`) rejects; here with the hash
instantiated to a function with `h₃ 5 0 0 ≠ 5`. -/
theorem mtVerifyProof_no_rehash_counterexample :
    Registry.mtVerifyProof (fun a b => a + b + 1) 5 ⟨5, [], []⟩ = true ∧
    Registry.mtVerifyProofClaimed (fun a b => a + b + 1) (fun a b c => a + b + c + 1)
      5 0 0 ⟨5, [], []⟩ = false := by
  decide

/-- C4 (amended): `verifyProof(leaf, proof)` folds the supplied leaf value
directly up the path, combining with `siblings[i]` on the side selected by
`pathIndices[i]` at each level (no Poseidon₃ rehash of
`(value, nextValue, nextIdx)` takes place), and returns true if and only if
the folded result equals `proof.root`. -/
theorem mtVerifyProof_folds_leaf_directly (h2 : Nat → Nat → Nat) (leaf : Nat)
    (pr : Registry.MerkleProofData) (hlen : pr.pathIndices.length = pr.siblings.length) :
    Registry.mtVerifyProof h2 leaf pr = true ↔
      Registry.foldPathZip h2 leaf (pr.siblings.zip pr.pathIndices) = pr.root := by
  unfold Registry.mtVerifyProof
  rw [Registry.foldPath_eq_zip h2 pr.siblings pr.pathIndices leaf hlen]
  exact beq_iff_eq

/-- C4 witness: the amended theorem applied at a concrete proof. -/
theorem mtVerifyProof_folds_leaf_directly_witness :
    ([7] : List Nat).length = ([9] : List Nat).length ∧
      (Registry.mtVerifyProof (fun a b => a * 100 + b) 3 ⟨309, [9], [7]⟩ = true ↔
        Registry.foldPathZip (fun a b => a * 100 + b) 3 ([9].zip [7]) = 309) :=
  ⟨rfl, mtVerifyProof_folds_leaf_directly (fun a b => a * 100 + b) 3 ⟨309, [9], [7]⟩ rfl⟩

/-- C5: the claim states that inserting an already-present value fails with
an `AlreadyPresent` error and returns no index.  In the source, `addLeaf` on
a duplicate returns the existing index (here `1`) together with the
unchanged state — it does not fail. -/
theorem addLeaf_duplicate_counterexample :
    Registry.addLeaf (Registry.addLeaf Registry.emptyTreeState 5).2 5
      = (1, (Registry.addLeaf Registry.emptyTreeState 5).2) := by
  decide

/-- C5 (amended): for every tree state and every value recorded in the
nullifier index, `addLeaf` returns the recorded index and leaves the state
unchanged, and the `POST /nullifiers/register` route rejects the duplicate
with HTTP 409 before `addLeaf` is called. -/
theorem addLeaf_duplicate_behavior (s : Registry.TreeState) (v i : Nat)
    (h : Registry.indexLookup s.index v = some i) :
    Registry.addLeaf s v = (i, s) ∧
      Registry.registerNullifier s v = Registry.RegisterOutcome.conflict409 := by
  refine ⟨?_, ?_⟩
  · unfold Registry.addLeaf
    rw [h]
  · unfold Registry.registerNullifier
    rw [h]
    rfl

namespace Poseidon

/-- BLS12-381 scalar-field modulus (`FieldOperations.FIELD_MODULUS` in
`crypto-utils.ts`; `hashBytes` reduces its chunks with it). -/
def qBls : Nat :=
  0x73eda753299d7d483339d80809a1d80553bda402fffe5bfeffffffff00000001

/-- Big-endian value of a byte buffer (`BigInt('0x' + hex)`). -/
def beValue (bytes : List Nat) : Nat := bytes.foldl (fun a b => a * 256 + b) 0

/-- The `FieldOperations.bytesToScalar` conversion: big-endian value of the
bytes reduced modulo the BLS12-381 scalar modulus. -/
def bytesToScalar (bytes : List Nat) : Nat := beValue bytes % qBls

/-- The `PoseidonHash.hashMany` function.  The external circomlibjs Poseidon
is the parameter `pos`; the empty input maps to `0` without any hash call,
any other input to a single variadic Poseidon call on the whole vector. -/
def hashMany (pos : List Nat → Nat) (inputs : List Nat) : Nat :=
  if inputs = [] then 0 else pos inputs

/-- Chunking loop of `PoseidonHash.hashBytes`, written with an explicit
fuel argument (each iteration of the source loop consumes at least one
byte, so fuel `data.length` suffices): 31-byte slices, each copied into a
zero-initialised 32-byte buffer at offset 0 (hence zero-padded on the
right) and converted with `bytesToScalar`. -/
def chunks31Go : Nat → List Nat → List Nat
  | _, [] => []
  | 0, _ :: _ => []
  | fuel + 1, b :: rest =>
    bytesToScalar (((b :: rest).take 31) ++
        List.replicate (32 - ((b :: rest).take 31).length) 0) ::
      chunks31Go fuel ((b :: rest).drop 31)

/-- Chunk list of `PoseidonHash.hashBytes`. -/
def chunks31 (data : List Nat) : List Nat := chunks31Go data.length data

/-- The `PoseidonHash.hashBytes` function: chunk, then `hashMany`. -/
def hashBytes (pos : List Nat → Nat) (data : List Nat) : Nat :=
  hashMany pos (chunks31 data)

/-- Absorption described by the specification sentence behind claim C7
(`Modelled from the spec` for comparison only): left-fold
`acc = hash2(acc, chunk_i)` with seed `hash2(chunk₀, 0)` for a single chunk
and `hash2(0, 0)` for the empty input. -/
def hashBytesClaimed (h2 : Nat → Nat → Nat) (data : List Nat) : Nat :=
  match chunks31 data with
  | [] => h2 0 0
  | c :: cs => cs.foldl h2 (h2 c 0)

theorem chunks31Go_lt : ∀ (fuel : Nat) (data : List Nat),
    ∀ c ∈ chunks31Go fuel data, c < qBls
  | _, [] => by intro c hc; exact absurd hc (by simp [chunks31Go])
  | 0, _ :: _ => by intro c hc; exact absurd hc (by simp [chunks31Go])
  | fuel + 1, b :: rest => by
    intro c hc
    rw [chunks31Go] at hc
    rcases List.mem_cons.mp hc with h | h
    · rw [h]
      exact Nat.mod_lt _ (by decide)
    · exact chunks31Go_lt fuel ((b :: rest).drop 31) c h

theorem chunks31_lt (data : List Nat) : ∀ c ∈ chunks31 data, c < qBls :=
  chunks31Go_lt data.length data

theorem chunks31_nil_iff : ∀ data : List Nat, chunks31 data = [] ↔ data = []
  | [] => by rw [chunks31]; rw [chunks31Go]
  | b :: rest => by
    unfold chunks31
    rw [List.length_cons, chunks31Go]
    simp

end Poseidon

/-- C7: the claim states that byte absorption combines 31-byte chunks by
the left fold `acc = hash2(acc, chunk_i)`, hashing a single chunk as
`hash2(chunk₀, 0)` and the empty input as `hash2(0, 0)`.  The source's
`hashBytes` instead makes one variadic Poseidon call on the whole chunk
vector and returns `0` for the empty input without hashing at all: with
Poseidon instantiated to a concrete function, the two disagree already on
the empty input and on a single chunk. -/
theorem hashBytes_not_fold_counterexample :
    Poseidon.hashBytes (fun l => l.foldl (fun a x => 2 * a + x) 1) [] ≠
      Poseidon.hashBytesClaimed
        (fun a b => [a, b].foldl (fun a x => 2 * a + x) 1) [] ∧
    Poseidon.hashBytes (fun l => l.foldl (fun a x => 2 * a + x) 1) [1] ≠
      Poseidon.hashBytesClaimed
        (fun a b => [a, b].foldl (fun a x => 2 * a + x) 1) [1] := by
  constructor
  · decide
  · decide

/-- C7 (amended): `hashBytes` splits the input into 31-byte chunks, each
zero-padded on the right to 32 bytes and reduced modulo the BLS12-381
scalar modulus (hence below that modulus), and hashes the whole chunk
vector with a single variadic Poseidon call; the empty input yields `0`
without any hash call. -/
theorem hashBytes_variadic (pos : List Nat → Nat) (data : List Nat) :
    Poseidon.hashBytes pos data =
      (if data = [] then 0 else pos (Poseidon.chunks31 data)) ∧
      ∀ c ∈ Poseidon.chunks31 data, c < Poseidon.qBls := by
  refine ⟨?_, Poseidon.chunks31_lt data⟩
  unfold Poseidon.hashBytes Poseidon.hashMany
  by_cases h : data = []
  · rw [if_pos ((Poseidon.chunks31_nil_iff data).mpr h), if_pos h]
  · rw [if_neg (fun e => h ((Poseidon.chunks31_nil_iff data).mp e)), if_neg h]

/-- C6: starting from the initial state containing only the head leaf
`{value: 0, nextValue: 0, nextIdx: 0}`, after any sequence of `addLeaf`
calls with pairwise-distinct nonzero values, every leaf `i` with
`nextIdx = j` satisfies `leaves[j].value > leaves[i].value` or
`leaves[j].value = 0`, and all leaf values remain pairwise distinct. -/
theorem insertAll_sorted_linked_list (vs : List Nat) (hnd : vs.Nodup)
    (hnz : ∀ v ∈ vs, v ≠ 0) :
    (∀ i < (Registry.insertAll Registry.emptyTreeState vs).leaves.length,
        Registry.valueAt (Registry.insertAll Registry.emptyTreeState vs).leaves i <
          Registry.valueAt (Registry.insertAll Registry.emptyTreeState vs).leaves
            (Registry.nextIdxAt (Registry.insertAll Registry.emptyTreeState vs).leaves i) ∨
        Registry.valueAt (Registry.insertAll Registry.emptyTreeState vs).leaves
          (Registry.nextIdxAt (Registry.insertAll Registry.emptyTreeState vs).leaves i) = 0) ∧
      ∀ i j, i < (Registry.insertAll Registry.emptyTreeState vs).leaves.length →
        j < (Registry.insertAll Registry.emptyTreeState vs).leaves.length → i ≠ j →
        Registry.valueAt (Registry.insertAll Registry.emptyTreeState vs).leaves i ≠
          Registry.valueAt (Registry.insertAll Registry.emptyTreeState vs).leaves j := by
  have hfresh : ∀ v ∈ vs, ∀ k < Registry.emptyTreeState.leaves.length,
      Registry.valueAt Registry.emptyTreeState.leaves k ≠ v := by
    intro v hv k hk
    have h1 : Registry.emptyTreeState.leaves.length = 1 := rfl
    rw [h1] at hk
    have : k = 0 := by omega
    subst this
    have : Registry.valueAt Registry.emptyTreeState.leaves 0 = 0 := rfl
    rw [this]
    exact fun e => hnz v hv e.symm
  have hg := Registry.insertAll_good vs Registry.emptyTreeState
    Registry.emptyTreeState_good hnz hfresh hnd
  exact ⟨hg.sorted, hg.distinct⟩

/-- C6 witness: the sorted-order theorem applied to the insertion sequence
`[5, 3]`. -/
theorem insertAll_sorted_linked_list_witness :
    ([5, 3] : List Nat).Nodup ∧ (∀ v ∈ ([5, 3] : List Nat), v ≠ 0) ∧
      ((∀ i < (Registry.insertAll Registry.emptyTreeState [5, 3]).leaves.length,
          Registry.valueAt (Registry.insertAll Registry.emptyTreeState [5, 3]).leaves i <
            Registry.valueAt (Registry.insertAll Registry.emptyTreeState [5, 3]).leaves
              (Registry.nextIdxAt (Registry.insertAll Registry.emptyTreeState [5, 3]).leaves i) ∨
          Registry.valueAt (Registry.insertAll Registry.emptyTreeState [5, 3]).leaves
            (Registry.nextIdxAt
              (Registry.insertAll Registry.emptyTreeState [5, 3]).leaves i) = 0) ∧
        ∀ i j, i < (Registry.insertAll Registry.emptyTreeState [5, 3]).leaves.length →
          j < (Registry.insertAll Registry.emptyTreeState [5, 3]).leaves.length → i ≠ j →
          Registry.valueAt (Registry.insertAll Registry.emptyTreeState [5, 3]).leaves i ≠
            Registry.valueAt (Registry.insertAll Registry.emptyTreeState [5, 3]).leaves j) :=
  ⟨by decide, by decide, insertAll_sorted_linked_list [5, 3] (by decide) (by decide)⟩

/-- C5 witness: the amended theorem applied to the state obtained by
inserting `5` into the empty tree. -/
theorem addLeaf_duplicate_behavior_witness :
    Registry.indexLookup (Registry.addLeaf Registry.emptyTreeState 5).2.index 5 = some 1 ∧
      (Registry.addLeaf (Registry.addLeaf Registry.emptyTreeState 5).2 5
          = (1, (Registry.addLeaf Registry.emptyTreeState 5).2) ∧
        Registry.registerNullifier (Registry.addLeaf Registry.emptyTreeState 5).2 5
          = Registry.RegisterOutcome.conflict409) :=
  ⟨by decide, addLeaf_duplicate_behavior _ 5 1 (by decide)⟩

namespace Setup

/-- The `PublicParameters` record (hex-encoded generator strings). -/
structure PublicParameters where
  version : Nat
  maxAttributes : Nat
  generatorG : String
  attributeGenerators : List String
  blindingGenerator : String
  deriving Repr, DecidableEq

/-- The `TrustedSetup.verifyParameters` check.  Deserialisation of a
compressed G1 point is performed by the external noble-curves library and
is therefore the parameter `deser` (`none` models a deserialisation throw,
which the source catches and converts to `false`).  The source checks that
the base generator deserialises, that the generator count matches
`maxAttributes`, that every attribute generator deserialises and that the
blinding generator deserialises — nothing else. -/
def verifyParameters {P : Type} (deser : String → Option P)
    (params : PublicParameters) : Bool :=
  (deser params.generatorG).isSome &&
    (params.attributeGenerators.length == params.maxAttributes) &&
    params.attributeGenerators.all (fun h => (deser h).isSome) &&
    (deser params.blindingGenerator).isSome

end Setup

/-- C8: the claim states that `verifyParameters` returns true only if all
generators are pairwise distinct, and in particular returns false on every
parameter set containing two equal generators.  The source never compares
generators with each other: a parameter set whose generators are all the
same (deserialisable) string passes. -/
theorem verifyParameters_no_distinctness_counterexample :
    Setup.verifyParameters (fun s => some s)
        ⟨1, 2, "aa", ["aa", "aa"], "aa"⟩ = true ∧
      ¬ (("aa" :: ["aa", "aa"] ++ ["aa"]) : List String).Nodup := by
  constructor
  · decide
  · decide

/-- C8 (amended): `verifyParameters(params)` returns true if and only if
the base generator deserialises, the number of attribute generators equals
`maxAttributes`, every attribute generator deserialises, and the blinding
generator deserialises; no distinctness check is performed. -/
theorem verifyParameters_characterization {P : Type} (deser : String → Option P)
    (params : Setup.PublicParameters) :
    Setup.verifyParameters deser params = true ↔
      (deser params.generatorG).isSome = true ∧
        params.attributeGenerators.length = params.maxAttributes ∧
        (∀ h ∈ params.attributeGenerators, (deser h).isSome = true) ∧
        (deser params.blindingGenerator).isSome = true := by
  unfold Setup.verifyParameters
  simp [List.all_eq_true, and_assoc]

namespace Challenge

/-- BLS12-381 scalar-field modulus (`FIELD_MODULUS` in
`challenge-manager`). -/
def FIELD_MODULUS : Nat :=
  0x73eda753299d7d483339d80809a1d80553bda402fffe5bfeffffffff00000001

/-- Challenge time-to-live (`CHALLENGE_TTL_MS = 5 * 60 * 1000`). -/
def CHALLENGE_TTL_MS : Nat := 5 * 60 * 1000

/-- Digit characters produced by JavaScript `Number.prototype.toString(b)`
for bases up to 36: `0`-`9` then lowercase letters. -/
def digitChar36 (d : Nat) : Char :=
  if d < 10 then Char.ofNat (48 + d) else Char.ofNat (87 + d)

/-- Base-`b` rendering of `n`, as JavaScript `n.toString(b)` produces it:
most-significant digit first, `"0"` for zero, lowercase digits. -/
def toBaseStr (b n : Nat) : String :=
  if n = 0 then "0" else String.mk (((Nat.digits b n).reverse).map digitChar36)

/-- Lowercase hex rendering of a byte buffer, as Node's
`Buffer.toString('hex')`: two hex digits per byte. -/
def bytesToHexStr (bytes : List Nat) : String :=
  String.mk (bytes.foldr (fun b acc => digitChar36 (b / 16) :: digitChar36 (b % 16) :: acc) [])

/-- The `generateChallengeId` method:
`"ch_" + Date.now().toString(36) + "_" + randomBytes(8).toString('hex')`.
The clock reading and the 8 random bytes are parameters. -/
def generateChallengeId (timestamp : Nat) (rnd : List Nat) : String :=
  "ch_" ++ toBaseStr 36 timestamp ++ "_" ++ bytesToHexStr rnd

/-- JavaScript `padStart(64, '0')`. -/
def padStart64 (s : String) : String :=
  String.mk (List.replicate (64 - s.length) '0' ++ s.data)

/-- Rendering of the challenge value:
`(BigInt('0x' + randomBytes(32)) % FIELD_MODULUS).toString(16).padStart(64, '0')`;
the random 32-byte draw is the parameter `randVal`. -/
def challengeHex (randVal : Nat) : String :=
  padStart64 (toBaseStr 16 (randVal % FIELD_MODULUS))

/-- The `AuthChallenge` record returned by `generateChallenge`. -/
structure AuthChallenge where
  challengeId : String
  challenge : String
  domain : String
  registryRoot : String
  circuitId : String
  createdAt : Nat
  expiresAt : Nat
  deriving Repr, DecidableEq

/-- The `ChallengeManager.generateChallenge` method.  `tId` is the clock
reading taken inside `generateChallengeId`, `tCreated` the later clock
reading of step 4 (two separate `Date.now()` calls in the source), `rnd8`
the 8 random id bytes, `randVal` the random 32-byte challenge draw, and
`root` the registry root obtained in step 3. -/
def generateChallenge (domain : String) (tId : Nat) (rnd8 : List Nat)
    (randVal : Nat) (root : String) (tCreated : Nat) : AuthChallenge :=
  { challengeId := generateChallengeId tId rnd8
    challenge := challengeHex randVal
    domain := domain
    registryRoot := root
    circuitId := "halp-auth-v1"
    createdAt := tCreated
    expiresAt := tCreated + CHALLENGE_TTL_MS }

theorem bytesToHexStr_length : ∀ l : List Nat, (bytesToHexStr l).length = 2 * l.length
  | [] => rfl
  | b :: t => by
    have ih := bytesToHexStr_length t
    unfold bytesToHexStr at ih ⊢
    simp only [List.foldr_cons]
    show (digitChar36 (b / 16) :: digitChar36 (b % 16) ::
        t.foldr (fun b acc => digitChar36 (b / 16) :: digitChar36 (b % 16) :: acc) []).length
      = 2 * (t.length + 1)
    have hlen : (String.mk (t.foldr
        (fun b acc => digitChar36 (b / 16) :: digitChar36 (b % 16) :: acc) [])).length
      = (t.foldr (fun b acc => digitChar36 (b / 16) :: digitChar36 (b % 16) :: acc) []).length := rfl
    rw [hlen] at ih
    simp only [List.length_cons]
    omega

theorem digits16_len_le (m : Nat) (hm : m < 16 ^ 64) : (Nat.digits 16 m).length ≤ 64 := by
  by_cases h0 : m = 0
  · subst h0; simp
  · rw [Nat.digits_len 16 m (by norm_num) h0]
    have hlog : Nat.log 16 m < 64 := by
      by_contra h
      push_neg at h
      have h1 : (16 : Nat) ^ 64 ≤ 16 ^ Nat.log 16 m := Nat.pow_le_pow_right (by norm_num) h
      have h2 : (16 : Nat) ^ Nat.log 16 m ≤ m := Nat.pow_log_le_self 16 h0
      omega
    omega

theorem toBaseStr16_len_le (m : Nat) (hm : m < 16 ^ 64) : (toBaseStr 16 m).length ≤ 64 := by
  unfold toBaseStr
  by_cases h0 : m = 0
  · rw [if_pos h0]; decide
  · rw [if_neg h0]
    show ((Nat.digits 16 m).reverse.map digitChar36).length ≤ 64
    rw [List.length_map, List.length_reverse]
    exact digits16_len_le m hm

theorem padStart64_length (s : String) (h : s.length ≤ 64) : (padStart64 s).length = 64 := by
  unfold padStart64
  show (List.replicate (64 - s.length) '0' ++ s.data).length = 64
  rw [List.length_append, List.length_replicate]
  have : s.data.length = s.length := rfl
  omega

theorem challengeHex_length (randVal : Nat) : (challengeHex randVal).length = 64 := by
  unfold challengeHex
  refine padStart64_length _ (toBaseStr16_len_le _ ?_)
  have h1 : randVal % FIELD_MODULUS < FIELD_MODULUS := Nat.mod_lt _ (by decide)
  have h2 : FIELD_MODULUS < 16 ^ 64 := by decide
  omega

end Challenge

/-- C9: the claim states that the challenge id ends in 8 random hexadecimal
characters.  The source appends `randomBytes(8).toString('hex')`, which is
16 hexadecimal characters: at timestamp 0 with zero random bytes the
produced id is `"ch_0_0000000000000000"`, which cannot be decomposed as
`"ch_" ++ base36 ++ "_" ++ h` with an 8-character `h`. -/
theorem generateChallengeId_not_8_hex_counterexample :
    ¬ ∃ h : String, h.length = 8 ∧
      (Challenge.generateChallenge "example.com" 0 [0, 0, 0, 0, 0, 0, 0, 0] 0 "r" 0).challengeId
        = "ch_" ++ Challenge.toBaseStr 36 0 ++ "_" ++ h := by
  rintro ⟨h, hlen, heq⟩
  have hid : (Challenge.generateChallenge "example.com" 0 [0, 0, 0, 0, 0, 0, 0, 0] 0 "r" 0).challengeId
      = "ch_0_0000000000000000" := rfl
  have hpre : ("ch_" ++ Challenge.toBaseStr 36 0 ++ "_" ++ h) = "ch_0_" ++ h := rfl
  rw [hid, hpre] at heq
  have hlen2 := congrArg String.length heq
  rw [String.length_append] at hlen2
  have e1 : ("ch_0_0000000000000000" : String).length = 21 := rfl
  have e2 : ("ch_0_" : String).length = 5 := rfl
  rw [e1, e2, hlen] at hlen2
  omega

/-- C9 (amended): every challenge produced by `generateChallenge` has
`challengeId = "ch_" ++ (clock reading).toString(36) ++ "_" ++ 16 random
hexadecimal characters` (the hex encoding of 8 random bytes; the id's
timestamp comes from a clock reading taken slightly before `createdAt`),
`challenge` equal to a random draw reduced into the BLS12-381 scalar field
and rendered as a 64-character hex string, and
`expiresAt = createdAt + 5 minutes`. -/
theorem generateChallenge_fields (domain : String) (tId : Nat) (rnd8 : List Nat)
    (randVal : Nat) (root : String) (tCreated : Nat) (h8 : rnd8.length = 8) :
    (Challenge.generateChallenge domain tId rnd8 randVal root tCreated).challengeId
        = "ch_" ++ Challenge.toBaseStr 36 tId ++ "_" ++ Challenge.bytesToHexStr rnd8 ∧
      (Challenge.bytesToHexStr rnd8).length = 16 ∧
      (Challenge.generateChallenge domain tId rnd8 randVal root tCreated).challenge
        = Challenge.padStart64 (Challenge.toBaseStr 16 (randVal % Challenge.FIELD_MODULUS)) ∧
      (Challenge.generateChallenge domain tId rnd8 randVal root tCreated).challenge.length = 64 ∧
      (Challenge.generateChallenge domain tId rnd8 randVal root tCreated).expiresAt
        = (Challenge.generateChallenge domain tId rnd8 randVal root tCreated).createdAt
            + 5 * 60 * 1000 := by
  refine ⟨rfl, ?_, rfl, Challenge.challengeHex_length randVal, rfl⟩
  rw [Challenge.bytesToHexStr_length rnd8, h8]

/-- C9 witness: the amended theorem applied at a concrete clock reading,
byte draw and random value. -/
theorem generateChallenge_fields_witness :
    ([1, 2, 3, 4, 5, 6, 7, 8] : List Nat).length = 8 ∧
      ((Challenge.generateChallenge "d" 9 [1, 2, 3, 4, 5, 6, 7, 8] 10 "r" 11).challengeId
          = "ch_" ++ Challenge.toBaseStr 36 9 ++ "_"
              ++ Challenge.bytesToHexStr [1, 2, 3, 4, 5, 6, 7, 8] ∧
        (Challenge.bytesToHexStr [1, 2, 3, 4, 5, 6, 7, 8]).length = 16 ∧
        (Challenge.generateChallenge "d" 9 [1, 2, 3, 4, 5, 6, 7, 8] 10 "r" 11).challenge
          = Challenge.padStart64 (Challenge.toBaseStr 16 (10 % Challenge.FIELD_MODULUS)) ∧
        (Challenge.generateChallenge "d" 9 [1, 2, 3, 4, 5, 6, 7, 8] 10 "r" 11).challenge.length
          = 64 ∧
        (Challenge.generateChallenge "d" 9 [1, 2, 3, 4, 5, 6, 7, 8] 10 "r" 11).expiresAt
          = (Challenge.generateChallenge "d" 9 [1, 2, 3, 4, 5, 6, 7, 8] 10 "r" 11).createdAt
              + 5 * 60 * 1000) :=
  ⟨rfl, generateChallenge_fields "d" 9 [1, 2, 3, 4, 5, 6, 7, 8] 10 "r" 11 rfl⟩

namespace Verifier

/-- Groth16 proof triple as transported (string entries). -/
structure SnarkProof where
  pi_a : List String
  pi_b : List (List String)
  pi_c : List String
  protocol : String
  curve : String
  deriving Repr, DecidableEq

/-- SNARK public inputs (hex strings). -/
structure SnarkPublicInputs where
  pseudonym : String
  nullifier : String
  commitmentHash : String
  registryRoot : String
  challenge : String
  deriving Repr, DecidableEq

/-- BBS+ selective-disclosure proof payload; `revealedMessages` is the
JSON object `{idx: string}` as an association list. -/
structure BBSSelectiveDisclosureProof where
  proof : String
  revealedIndices : List Nat
  revealedMessages : List (Nat × String)
  issuerPublicKey : String
  nonce : String
  deriving Repr, DecidableEq

/-- Hybrid authentication proof. -/
structure HybridAuthProof where
  snarkProof : SnarkProof
  publicInputs : SnarkPublicInputs
  bbsProof : Option BBSSelectiveDisclosureProof
  commitmentHash : String
  deriving Repr, DecidableEq

/-- Hybrid authentication package. -/
structure HybridAuthPackage where
  challengeId : String
  challenge : String
  hybridProof : HybridAuthProof
  pseudonym : String
  nullifier : String
  domain : String
  registryRoot : String
  timestamp : Nat
  deriving Repr, DecidableEq

/-- The `HybridVerificationResult` record (`errMsg` is the `error`
field). -/
structure HybridVerificationResult where
  valid : Bool
  snarkValid : Bool
  bbsValid : Bool
  bindingValid : Bool
  registryRootValid : Bool
  nullifierFresh : Bool
  pseudonym : Option String
  domain : Option String
  errMsg : Option String
  deriving Repr, DecidableEq

/-- Environment of the verifier: the loaded-verification-key flag, the
external snarkjs Groth16 verifier (signals passed as parsed numbers;
`Except.error` models a thrown exception), and the two registry fetches
(`Except.error` models an unreachable registry or a non-ok response). -/
structure Env where
  circuitReady : Bool
  groth16Verify : SnarkProof → List Nat → Except Unit Bool
  rootResp : Except Unit String
  usedResp : String → Except Unit Bool

/-- Hex-digit test matching the regex class `[0-9a-fA-F]`. -/
def isHexChar (c : Char) : Bool :=
  ('0' ≤ c && c ≤ '9') || ('a' ≤ c && c ≤ 'f') || ('A' ≤ c && c ≤ 'F')

/-- The regex test `/^[0-9a-fA-F]+$/` of `performStructuralVerification`. -/
def isHexString (s : String) : Bool :=
  !s.data.isEmpty && s.data.all isHexChar

/-- Numeric value of a hex digit. -/
def hexCharVal (c : Char) : Nat :=
  if c ≤ '9' then c.toNat - 48 else if c ≤ 'F' then c.toNat - 55 else c.toNat - 87

/-- Leading `0x` stripping of `hexToDecimal`. -/
def stripHexPrefix (s : String) : List Char :=
  match s.data with
  | '0' :: 'x' :: rest => rest
  | l => l

/-- The `hexToDecimal` helper: `BigInt('0x' + cleanHex)`, which throws
(modelled by `none`) unless the cleaned string is nonempty and all hex. -/
def parseHex (s : String) : Option Nat :=
  let l := stripHexPrefix s
  if l ≠ [] ∧ l.all isHexChar then
    some (l.foldl (fun a c => a * 16 + hexCharVal c) 0)
  else none

/-- The `validateSnarkStructure` check (the `!proof.pi_a`-style guards are
vacuous here because the fields always exist, and `pi_b[0]` is truthy
whenever it exists since arrays are truthy in JavaScript). -/
def validateSnarkStructure (p : SnarkProof) : Bool :=
  (2 ≤ p.pi_a.length : Bool) && (2 ≤ p.pi_c.length : Bool) && (1 ≤ p.pi_b.length : Bool)

/-- The `isDemoModeProof` check: identical first two entries of `pi_a` or
of `pi_c`. -/
def isDemoModeProof (p : SnarkProof) : Bool :=
  ((2 ≤ p.pi_a.length : Bool) && (p.pi_a.getD 0 "" == p.pi_a.getD 1 "")) ||
    ((2 ≤ p.pi_c.length : Bool) && (p.pi_c.getD 0 "" == p.pi_c.getD 1 ""))

/-- The `performStructuralVerification` fallback: some `pi_a` entry other
than `"0"`, `""`, `"1"`, and hex-format pseudonym and nullifier. -/
def performStructuralVerification (p : SnarkProof) (pub : SnarkPublicInputs) : Bool :=
  p.pi_a.any (fun v => !(v == "0") && !(v == "") && !(v == "1")) &&
    isHexString pub.pseudonym && isHexString pub.nullifier

/-- The `verifySnarkProof` method: structure check; then, when the
verification key is loaded, hex-to-decimal conversion of the five public
inputs (a conversion throw falls back to structural verification), the
snarkjs call (a throw falls back to structural verification), and on a
`false` verdict the demo-proof fallback; without a verification key,
structural verification directly. -/
def verifySnarkProof (env : Env) (hp : HybridAuthProof) : Bool :=
  if !validateSnarkStructure hp.snarkProof then false
  else if env.circuitReady then
    match parseHex hp.publicInputs.pseudonym, parseHex hp.publicInputs.nullifier,
        parseHex hp.publicInputs.commitmentHash, parseHex hp.publicInputs.registryRoot,
        parseHex hp.publicInputs.challenge with
    | some s1, some s2, some s3, some s4, some s5 =>
      match env.groth16Verify hp.snarkProof [s1, s2, s3, s4, s5] with
      | Except.error _ => performStructuralVerification hp.snarkProof hp.publicInputs
      | Except.ok true => true
      | Except.ok false =>
        if isDemoModeProof hp.snarkProof then
          performStructuralVerification hp.snarkProof hp.publicInputs
        else false
    | _, _, _, _, _ => performStructuralVerification hp.snarkProof hp.publicInputs
  else performStructuralVerification hp.snarkProof hp.publicInputs

/-- Lookup in the `revealedMessages` object. -/
def lookupMsg (msgs : List (Nat × String)) (i : Nat) : Option String :=
  (msgs.find? (fun p => p.fst == i)).map Prod.snd

/-- The `verifyBBSProof` structural check (demo mode): nonempty proof blob,
index 0 revealed, and a truthy message at index 0. -/
def verifyBBSProof (bp : BBSSelectiveDisclosureProof) : Bool :=
  !(bp.proof == "") && bp.revealedIndices.contains 0 &&
    (match lookupMsg bp.revealedMessages 0 with
     | some m => !(m == "")
     | none => false)

/-- The `verifyBinding` check; when a BBS+ proof is present its message 0
always exists on the reachable path (the BBS check runs first), so the
`getD` default is never compared. -/
def verifyBinding (hp : HybridAuthProof) : Bool :=
  (hp.publicInputs.commitmentHash == hp.commitmentHash) &&
    (match hp.bbsProof with
     | none => true
     | some bp => (lookupMsg bp.revealedMessages 0).getD "" == hp.publicInputs.commitmentHash)

/-- The `verifyRegistryRoot` method: a reachable registry with an equal
root, or any claimed root of length 64 (demo acceptance), or — on a fetch
error or non-ok response — unconditional acceptance (`[Warning] Could not
reach registry, accepting root`). -/
def verifyRegistryRoot (env : Env) (claimedRoot : String) : Bool :=
  match env.rootResp with
  | Except.error _ => true
  | Except.ok currentRoot =>
    if currentRoot == claimedRoot then true
    else if !(claimedRoot == "") && (claimedRoot.length == 64) then true
    else false

/-- The `checkNullifierFresh` method: `!data.used` on success, and — on a
fetch error or non-ok response — unconditional freshness (`[Warning] Could
not reach registry, assuming fresh`). -/
def checkNullifierFresh (env : Env) (nf : String) : Bool :=
  match env.usedResp nf with
  | Except.error _ => true
  | Except.ok used => !used

/-- The `verify` method: the five checks in order, short-circuiting with an
error message, then `valid := true`. -/
def verify (env : Env) (pkg : HybridAuthPackage) : HybridVerificationResult :=
  let r0 : HybridVerificationResult :=
    ⟨false, false, true, false, false, false, none, none, none⟩
  let r1 := { r0 with snarkValid := verifySnarkProof env pkg.hybridProof }
  if !r1.snarkValid then { r1 with errMsg := some "SNARK proof verification failed" }
  else
    let r2 := match pkg.hybridProof.bbsProof with
      | some bp => { r1 with bbsValid := verifyBBSProof bp }
      | none => r1
    if !r2.bbsValid then { r2 with errMsg := some "BBS+ proof verification failed" }
    else
      let r3 := { r2 with bindingValid := verifyBinding pkg.hybridProof }
      if !r3.bindingValid then { r3 with errMsg := some "Proof binding verification failed" }
      else
        let r4 := { r3 with registryRootValid := verifyRegistryRoot env pkg.registryRoot }
        if !r4.registryRootValid then { r4 with errMsg := some "Registry root mismatch" }
        else
          let r5 := { r4 with nullifierFresh := checkNullifierFresh env pkg.nullifier }
          if !r5.nullifierFresh then
            { r5 with errMsg := some "Nullifier already used (replay attack detected)" }
          else { r5 with valid := true, pseudonym := some pkg.pseudonym,
                         domain := some pkg.domain }

end Verifier

/-- C3: the claim states that registry unavailability is a hard failure —
if the Merkle-root fetch or the nullifier-freshness fetch fails, `verify`
does not return `valid = true`.  In the source both helpers return `true`
from their catch blocks, so a package whose other checks pass verifies
successfully while both registry fetches error. -/
theorem verify_registry_unavailable_counterexample :
    (Verifier.verify
        ⟨false, fun _ _ => Except.ok false, Except.error (), fun _ => Except.error ()⟩
        ⟨"c1", "11",
          ⟨⟨["2", "2", "1"], [["1", "0"], ["1", "0"], ["1", "0"]], ["2", "2", "1"],
              "groth16", "bn128"⟩,
            ⟨"ab", "cd", "ee", "ff", "11"⟩, none, "ee"⟩,
          "ab", "cd", "example.com", "ff", 0⟩).valid = true := by
  decide

/-- C3 (amended): when the registry is unreachable, `verifyRegistryRoot`
and `checkNullifierFresh` both return `true` from their catch blocks, so a
package that passes the SNARK, BBS+ and binding checks is verified with
`valid = true` even though neither the registry root nor nullifier
freshness could be checked — registry unavailability is silently
bypassed. -/
theorem verify_registry_unavailable_bypassed (env : Verifier.Env)
    (pkg : Verifier.HybridAuthPackage)
    (hroot : env.rootResp = Except.error ())
    (hused : env.usedResp pkg.nullifier = Except.error ())
    (hsnark : Verifier.verifySnarkProof env pkg.hybridProof = true)
    (hbbs : ∀ bp, pkg.hybridProof.bbsProof = some bp → Verifier.verifyBBSProof bp = true)
    (hbind : Verifier.verifyBinding pkg.hybridProof = true) :
    Verifier.verifyRegistryRoot env pkg.registryRoot = true ∧
      Verifier.checkNullifierFresh env pkg.nullifier = true ∧
      (Verifier.verify env pkg).valid = true := by
  have h1 : Verifier.verifyRegistryRoot env pkg.registryRoot = true := by
    unfold Verifier.verifyRegistryRoot
    rw [hroot]
  have h2 : Verifier.checkNullifierFresh env pkg.nullifier = true := by
    unfold Verifier.checkNullifierFresh
    rw [hused]
  refine ⟨h1, h2, ?_⟩
  unfold Verifier.verify
  simp only [hsnark, Bool.not_true, Bool.false_eq_true, if_false]
  cases hb : pkg.hybridProof.bbsProof with
  | none =>
    simp only [hsnark, hbind, h1, h2, Bool.not_true, Bool.false_eq_true, if_false]
  | some bp =>
    have := hbbs bp hb
    simp only [hsnark, this, hbind, h1, h2, Bool.not_true, Bool.false_eq_true, if_false]

/-- C3 witness: the amended theorem applied to a concrete environment with
both registry fetches failing and a concrete passing package. -/
theorem verify_registry_unavailable_bypassed_witness :
    (⟨false, fun _ _ => Except.ok false, Except.error (), fun _ => Except.error ()⟩
          : Verifier.Env).rootResp = Except.error () ∧
      (Verifier.verifyRegistryRoot
          ⟨false, fun _ _ => Except.ok false, Except.error (), fun _ => Except.error ()⟩
          "ff" = true ∧
        Verifier.checkNullifierFresh
          ⟨false, fun _ _ => Except.ok false, Except.error (), fun _ => Except.error ()⟩
          "cd" = true ∧
        (Verifier.verify
            ⟨false, fun _ _ => Except.ok false, Except.error (), fun _ => Except.error ()⟩
            ⟨"c1", "11",
              ⟨⟨["2", "2", "1"], [["1", "0"], ["1", "0"], ["1", "0"]], ["2", "2", "1"],
                  "groth16", "bn128"⟩,
                ⟨"ab", "cd", "ee", "ff", "11"⟩, none, "ee"⟩,
              "ab", "cd", "example.com", "ff", 0⟩).valid = true) :=
  ⟨rfl, verify_registry_unavailable_bypassed
    ⟨false, fun _ _ => Except.ok false, Except.error (), fun _ => Except.error ()⟩
    ⟨"c1", "11",
      ⟨⟨["2", "2", "1"], [["1", "0"], ["1", "0"], ["1", "0"]], ["2", "2", "1"],
          "groth16", "bn128"⟩,
        ⟨"ab", "cd", "ee", "ff", "11"⟩, none, "ee"⟩,
      "ab", "cd", "example.com", "ff", 0⟩
    rfl rfl (by decide) (fun bp h => Option.noConfusion h) (by decide)⟩

/-- C10: a proof whose Groth16 triple fails snarkjs verification is still
accepted by `verifySnarkProof` whenever its first two `pi_a` (or `pi_c`)
entries coincide — the demo-proof heuristic — some `pi_a` entry is outside
`{"0", "", "1"}`, and the pseudonym and nullifier public inputs are hex
strings: the verifier falls back to structural verification and returns
true. -/
theorem verifySnarkProof_demo_fallback_accepts (env : Verifier.Env)
    (hp : Verifier.HybridAuthProof)
    (hready : env.circuitReady = true)
    (hfail : ∀ sig, env.groth16Verify hp.snarkProof sig = Except.ok false)
    (hdemo : Verifier.isDemoModeProof hp.snarkProof = true)
    (hstruct : Verifier.validateSnarkStructure hp.snarkProof = true)
    (hcontent : hp.snarkProof.pi_a.any
        (fun v => !(v == "0") && !(v == "") && !(v == "1")) = true)
    (hhex1 : Verifier.isHexString hp.publicInputs.pseudonym = true)
    (hhex2 : Verifier.isHexString hp.publicInputs.nullifier = true) :
    Verifier.verifySnarkProof env hp = true := by
  have hperf : Verifier.performStructuralVerification hp.snarkProof hp.publicInputs = true := by
    unfold Verifier.performStructuralVerification
    rw [hcontent, hhex1, hhex2]
    rfl
  unfold Verifier.verifySnarkProof
  rw [hstruct, hready]
  simp only [Bool.not_true, Bool.false_eq_true, if_false, if_true]
  cases h1 : Verifier.parseHex hp.publicInputs.pseudonym with
  | none => exact hperf
  | some s1 =>
    cases h2 : Verifier.parseHex hp.publicInputs.nullifier with
    | none => exact hperf
    | some s2 =>
      cases h3 : Verifier.parseHex hp.publicInputs.commitmentHash with
      | none => exact hperf
      | some s3 =>
        cases h4 : Verifier.parseHex hp.publicInputs.registryRoot with
        | none => exact hperf
        | some s4 =>
          cases h5 : Verifier.parseHex hp.publicInputs.challenge with
          | none => exact hperf
          | some s5 =>
            dsimp only
            rw [hfail [s1, s2, s3, s4, s5]]
            simp [hdemo, hperf]

/-- C10 witness: the theorem applied to a concrete environment whose
Groth16 verifier rejects and a concrete demo-shaped proof. -/
theorem verifySnarkProof_demo_fallback_accepts_witness :
    (⟨true, fun _ _ => Except.ok false, Except.ok "x", fun _ => Except.ok false⟩
          : Verifier.Env).circuitReady = true ∧
      Verifier.verifySnarkProof
        ⟨true, fun _ _ => Except.ok false, Except.ok "x", fun _ => Except.ok false⟩
        ⟨⟨["2", "2", "1"], [["1", "0"], ["1", "0"], ["1", "0"]], ["3", "4", "1"],
            "groth16", "bn128"⟩,
          ⟨"ab", "cd", "ee", "ff", "11"⟩, none, "ee"⟩ = true :=
  ⟨rfl, verifySnarkProof_demo_fallback_accepts _ _ rfl (fun _ => rfl) (by decide) (by decide)
    (by decide) (by decide) (by decide)⟩

namespace Hybrid

/-- Derivation of the two Poseidon values that `generateHybridProof` places
(hex-rendered) into the SNARK public inputs as pseudonym and nullifier.
The session nonce is sampled exactly once
(`const sessionNonce = FieldOperations.randomScalar()`), with no range
check and no retry loop; `hash3` and `hashString` are the external
circomlibjs Poseidon. -/
def generateHybridPublicInputsRaw (hash3 : Nat → Nat → Nat → Nat)
    (hashString : String → Nat) (masterSecret sessionNonce : Nat)
    (credId domain : String) : Nat × Nat :=
  let domainHash := hashString domain
  let credentialIdHash := hashString credId
  (hash3 masterSecret sessionNonce domainHash,
    hash3 credentialIdHash sessionNonce domainHash)

/-- One random draw of the demo script `generate-real-proof.js` (the loop
resamples all of these each attempt, not only the session nonce). -/
structure Draw where
  masterSecret : Nat
  sessionNonce : Nat
  blindingFactor : Nat
  credentialId : String

/-- The `fitsIn252Bits` check of the script. -/
def fits252 (v : Nat) : Bool := v < 2 ^ 252

/-- Pseudonym/nullifier derivation of one script attempt. -/
def scriptDerive (hash3 : Nat → Nat → Nat → Nat) (hashString : String → Nat)
    (domain : String) (d : Draw) : Nat × Nat :=
  let domainHash := hashString domain
  let credIdHash := hashString d.credentialId
  (hash3 d.masterSecret d.sessionNonce domainHash,
    hash3 credIdHash d.sessionNonce domainHash)

/-- The script's `while (attempts < MAX_ATTEMPTS)` loop: `attempts` is
incremented, a fresh draw is taken, and the loop breaks when both derived
values fit in 252 bits.  `fuel` is the remaining iteration budget
(`MAX_ATTEMPTS - attempts`). -/
def scriptSearch (hash3 : Nat → Nat → Nat → Nat) (hashString : String → Nat)
    (domain : String) (draws : Nat → Draw) :
    Nat → Nat → Nat × Option (Nat × Nat)
  | attempts, 0 => (attempts, none)
  | attempts, fuel + 1 =>
    let pr := scriptDerive hash3 hashString domain (draws (attempts + 1))
    if fits252 pr.1 && fits252 pr.2 then (attempts + 1, some pr)
    else scriptSearch hash3 hashString domain draws (attempts + 1) fuel

/-- The secret-sampling phase of `generate-real-proof.js`: run the loop
with `MAX_ATTEMPTS = 100`, then `if (attempts >= MAX_ATTEMPTS) throw`
(note that this throws even when the 100th attempt succeeded). -/
def generateRealProofSample (hash3 : Nat → Nat → Nat → Nat)
    (hashString : String → Nat) (domain : String) (draws : Nat → Draw) :
    Except String (Nat × Nat) :=
  let r := scriptSearch hash3 hashString domain draws 0 100
  if 100 ≤ r.1 then
    Except.error "Could not generate values that fit in 252 bits after 100 attempts"
  else
    match r.2 with
    | some pr => Except.ok pr
    | none => Except.error "Could not generate values that fit in 252 bits after 100 attempts"

theorem scriptSearch_ok (hash3 : Nat → Nat → Nat → Nat) (hashString : String → Nat)
    (domain : String) (draws : Nat → Draw) :
    ∀ (fuel attempts a' : Nat) (pr : Nat × Nat),
      scriptSearch hash3 hashString domain draws attempts fuel = (a', some pr) →
      pr.1 < 2 ^ 252 ∧ pr.2 < 2 ^ 252
  | 0, attempts, a', pr, h => by
    rw [scriptSearch] at h
    exact absurd (congrArg Prod.snd h) (by simp)
  | fuel + 1, attempts, a', pr, h => by
    rw [scriptSearch] at h
    by_cases hc : fits252 (scriptDerive hash3 hashString domain (draws (attempts + 1))).1 &&
        fits252 (scriptDerive hash3 hashString domain (draws (attempts + 1))).2
    · rw [if_pos hc] at h
      have hpr := congrArg Prod.snd h
      simp only [Option.some.injEq] at hpr
      obtain ⟨hf1, hf2⟩ := Bool.and_eq_true_iff.mp hc
      rw [← hpr]
      unfold fits252 at hf1 hf2
      exact ⟨of_decide_eq_true hf1, of_decide_eq_true hf2⟩
    · rw [if_neg hc] at h
      exact scriptSearch_ok hash3 hashString domain draws fuel (attempts + 1) a' pr h

end Hybrid

/-- C2: the claim states that `generateHybridProof` samples the session
nonce in a retry loop guaranteeing that the pseudonym and nullifier public
inputs are below `2^252`.  The SDK's `generateHybridProof` samples the
nonce exactly once and performs no range check: with the external Poseidon
returning a value of `2^252` nothing in the code prevents that value from
being placed in the public inputs. -/
theorem generateHybridProof_no_range_check_counterexample :
    ¬ ((Hybrid.generateHybridPublicInputsRaw (fun _ _ _ => 2 ^ 252) (fun _ => 0)
        1 2 "urn:uuid:c" "example.com").1 < 2 ^ 252) := by
  decide

/-- C2 (amended): the 252-bit retry loop exists only in the demo script
`generate-real-proof.js`, which resamples all secrets (not just the session
nonce) for at most 100 attempts and throws a plain `Error` unless fitting
values are found within the first 99 attempts (a success on the 100th
attempt is also discarded by the `attempts >= MAX_ATTEMPTS` post-check);
whenever that script's sampling phase succeeds, the resulting pseudonym and
nullifier are both below `2^252`.  `generateHybridProof` itself samples the
nonce once and enforces no bound. -/
theorem script_sampling_bounds (hash3 : Nat → Nat → Nat → Nat)
    (hashString : String → Nat) (domain : String) (draws : Nat → Hybrid.Draw)
    (pr : Nat × Nat)
    (h : Hybrid.generateRealProofSample hash3 hashString domain draws = Except.ok pr) :
    pr.1 < 2 ^ 252 ∧ pr.2 < 2 ^ 252 := by
  unfold Hybrid.generateRealProofSample at h
  rcases hr : Hybrid.scriptSearch hash3 hashString domain draws 0 100 with ⟨a', res⟩
  rw [hr] at h
  by_cases ha : 100 ≤ a'
  · rw [if_pos ha] at h
    exact absurd h (by simp)
  · rw [if_neg ha] at h
    cases res with
    | none => exact absurd h (by simp)
    | some pr' =>
      simp only [Except.ok.injEq] at h
      rw [← h]
      exact Hybrid.scriptSearch_ok hash3 hashString domain draws 100 0 a' pr' hr

/-- C2 witness: the amended theorem applied to a concrete Poseidon stand-in
whose first draw already fits in 252 bits. -/
theorem script_sampling_bounds_witness :
    Hybrid.generateRealProofSample (fun a b c => a + b + c) (fun _ => 0) "example.com"
        (fun _ => ⟨1, 2, 3, "c"⟩) = Except.ok (3, 2) ∧
      ((3, 2) : Nat × Nat).1 < 2 ^ 252 ∧ ((3, 2) : Nat × Nat).2 < 2 ^ 252 :=
  ⟨rfl, script_sampling_bounds (fun a b c => a + b + c) (fun _ => 0) "example.com"
    (fun _ => ⟨1, 2, 3, "c"⟩) (3, 2) rfl⟩

namespace Commitment

/-- BLS12-381 scalar-field modulus; scalar arithmetic in `crypto-utils.ts`
(`addMod`, `mulMod`, `randomScalar`) is arithmetic in `ZMod q`. -/
def q : Nat :=
  0x73eda753299d7d483339d80809a1d80553bda402fffe5bfeffffffff00000001

/-- Parsed generators of `PublicParametersManager.getGenerators`.  The group
`G` abstracts the prime-order BLS12-381 G1 subgroup used by the external
noble-curves library, so it carries a `ZMod q`-module structure; point
serialisation is injective, so points stand for their byte encodings. -/
structure Generators (G : Type) where
  g : G
  attributeGenerators : List G
  blindingGenerator : G

variable {G : Type} [AddCommGroup G] [Module (ZMod q) G]

/-- The Pedersen combination used by `createCommitment` and the `T` of
`generateProof`: start from `ms • G`, add `attrs[i] • H_i` in a loop over
the attributes, then add `r • H_r`.  When the attribute list is longer than
the generator list the zip truncates (the source would fault there; all
theorems stay within the generator count). -/
def pedersen (gens : Generators G) (ms : ZMod q) (attrs : List (ZMod q))
    (r : ZMod q) : G :=
  ((attrs.zip gens.attributeGenerators).foldl (fun C p => C + p.1 • p.2) (ms • gens.g))
    + r • gens.blindingGenerator

/-- The `createCommitment` method restricted to a caller-supplied blinding
factor: fails (`Too many attributes`) when `|attrs| > maxAttributes`. -/
def createCommitment (maxAttrs : Nat) (gens : Generators G) (ms : ZMod q)
    (attrs : List (ZMod q)) (r : ZMod q) : Option G :=
  if attrs.length > maxAttrs then none else some (pedersen gens ms attrs r)

/-- The `ZeroKnowledgeProof` record.  The challenge travels as the 32-byte
big-endian encoding of a scalar below `q` (`scalarToBytes`), and
verification reads it back with `bytesToScalar`; since that round-trip is
the identity on canonical values the field is modelled as the scalar
itself, and the final constant-time byte comparison as scalar equality. -/
structure ZKProof (G : Type) where
  commitment : G
  T : G
  challenge : ZMod q
  responses : List (ZMod q)
  nonce : List Nat

/-- The `generateProof` method.  The sampled blinding scalars
`(r_ms, r_attrs, r_blind)` and the 32-byte `nonce` are parameters; `cHash`
is the Fiat–Shamir challenge `HashOperations.computeChallenge` (SHA-256
over the DST and the serialised points, reduced mod `q`). -/
def generateProof (gens : Generators G)
    (cHash : G → G → List Nat → List Nat → ZMod q)
    (ms : ZMod q) (attrs : List (ZMod q)) (blindingFactor : ZMod q)
    (commitment : G) (ctx : List Nat)
    (r_ms : ZMod q) (r_attrs : List (ZMod q)) (r_blind : ZMod q)
    (nonce : List Nat) : ZKProof G :=
  let T := pedersen gens r_ms r_attrs r_blind
  let c := cHash commitment T ctx nonce
  let s_ms := r_ms + c * ms
  let s_attrs := List.zipWith (fun ra a => ra + c * a) r_attrs attrs
  let s_blind := r_blind + c * blindingFactor
  { commitment := commitment, T := T, challenge := c,
    responses := [s_ms] ++ s_attrs ++ [s_blind], nonce := nonce }

/-- The `verifyProof` method: response-count check, recomputation of
`T' = G^{s_ms} · ∏ H_i^{s_i} · H_r^{s_blind} · C^{-c}`, re-derivation of
the challenge from `(C, T', ctx, nonce)`, and comparison with the received
challenge. -/
def verifyProof (gens : Generators G)
    (cHash : G → G → List Nat → List Nat → ZMod q)
    (proof : ZKProof G) (ctx : List Nat) (numAttributes : Nat) : Bool :=
  if proof.responses.length ≠ numAttributes + 2 then false
  else
    let s_ms := proof.responses.headD 0
    let s_attrs := (proof.responses.drop 1).take numAttributes
    let s_blind := proof.responses.getLastD 0
    let c := proof.challenge
    let Tp := pedersen gens s_ms s_attrs s_blind + -(c • proof.commitment)
    let cp := cHash proof.commitment Tp ctx proof.nonce
    c == cp

theorem foldl_add_smul (l : List (ZMod q × G)) (C0 : G) :
    l.foldl (fun C p => C + p.1 • p.2) C0 = C0 + (l.map (fun p => p.1 • p.2)).sum := by
  induction l generalizing C0 with
  | nil => simp
  | cons p l ih =>
    rw [List.foldl_cons, ih (C0 + p.1 • p.2), List.map_cons, List.sum_cons, add_assoc]

theorem pedersen_eq_sum (gens : Generators G) (ms : ZMod q) (attrs : List (ZMod q))
    (r : ZMod q) :
    pedersen gens ms attrs r =
      ms • gens.g + ((attrs.zip gens.attributeGenerators).map (fun p => p.1 • p.2)).sum
        + r • gens.blindingGenerator := by
  rw [pedersen, foldl_add_smul]

theorem zip_sum_linear (c : ZMod q) :
    ∀ (ras as : List (ZMod q)) (gs : List G), ras.length = as.length →
      (((List.zipWith (fun ra a => ra + c * a) ras as).zip gs).map
          (fun p => p.1 • p.2)).sum
        = ((ras.zip gs).map (fun p => p.1 • p.2)).sum
            + c • ((as.zip gs).map (fun p => p.1 • p.2)).sum
  | [], [], gs, _ => by simp
  | [], _ :: _, _, h => by simp at h
  | _ :: _, [], _, h => by simp at h
  | ra :: ras, a :: as, [], _ => by simp
  | ra :: ras, a :: as, g :: gs, h => by
    have ih := zip_sum_linear c ras as gs (by simpa using h)
    simp only [List.zipWith_cons_cons, List.zip_cons_cons, List.map_cons, List.sum_cons]
    rw [ih, add_smul, mul_smul, smul_add]
    abel

theorem pedersen_linear (gens : Generators G) (c : ZMod q)
    (r_ms : ZMod q) (r_attrs : List (ZMod q)) (r_blind : ZMod q)
    (ms : ZMod q) (attrs : List (ZMod q)) (r : ZMod q)
    (hlen : r_attrs.length = attrs.length) :
    pedersen gens (r_ms + c * ms) (List.zipWith (fun ra a => ra + c * a) r_attrs attrs)
        (r_blind + c * r)
      = pedersen gens r_ms r_attrs r_blind + c • pedersen gens ms attrs r := by
  rw [pedersen_eq_sum, pedersen_eq_sum, pedersen_eq_sum,
    zip_sum_linear c r_attrs attrs gens.attributeGenerators hlen,
    add_smul, mul_smul, add_smul, mul_smul, smul_add, smul_add]
  abel

end Commitment

namespace Commitment

variable {G : Type} [AddCommGroup G] [Module (ZMod q) G]

theorem verifyProof_of (gens : Generators G)
    (cHash : G → G → List Nat → List Nat → ZMod q)
    (Cp T0 T : G) (c s_ms s_blind : ZMod q) (s_attrs resp : List (ZMod q))
    (ctx nonce : List Nat) (num : Nat)
    (hresplen : resp.length = num + 2)
    (hhead : resp.headD 0 = s_ms)
    (htake : (resp.drop 1).take num = s_attrs)
    (hlast : resp.getLastD 0 = s_blind)
    (hT : pedersen gens s_ms s_attrs s_blind + -(c • Cp) = T)
    (hch : cHash Cp T ctx nonce = c) :
    verifyProof gens cHash ⟨Cp, T0, c, resp, nonce⟩ ctx num = true := by
  unfold verifyProof
  dsimp only
  rw [if_neg (by simp [hresplen]), hhead, htake, hlast, hT, hch]
  simp

end Commitment

/-- C1: for every master secret, attribute vector within the generator
and `maxAttributes` bounds, blinding factor, sampled proof randomness and
nonce, verifying the proof generated for the created commitment under the
same context and attribute count succeeds. -/
theorem schnorr_roundtrip (G : Type) [AddCommGroup G] [Module (ZMod Commitment.q) G]
    (gens : Commitment.Generators G)
    (cHash : G → G → List Nat → List Nat → ZMod Commitment.q)
    (maxAttrs : Nat) (ms r r_ms r_blind : ZMod Commitment.q)
    (attrs r_attrs : List (ZMod Commitment.q))
    (ctx nonce : List Nat) (C : G)
    (hmax : attrs.length ≤ maxAttrs)
    (hlen : r_attrs.length = attrs.length)
    (hC : Commitment.createCommitment maxAttrs gens ms attrs r = some C) :
    Commitment.verifyProof gens cHash
      (Commitment.generateProof gens cHash ms attrs r C ctx r_ms r_attrs r_blind nonce)
      ctx attrs.length = true := by
  have hCval : Commitment.pedersen gens ms attrs r = C := by
    unfold Commitment.createCommitment at hC
    rw [if_neg (by omega)] at hC
    injection hC
  set c := cHash C (Commitment.pedersen gens r_ms r_attrs r_blind) ctx nonce with hc
  have hsalen : (List.zipWith (fun ra a => ra + c * a) r_attrs attrs).length
      = attrs.length := by
    rw [List.length_zipWith, hlen, Nat.min_self]
  refine Commitment.verifyProof_of gens cHash C
      (Commitment.pedersen gens r_ms r_attrs r_blind)
      (Commitment.pedersen gens r_ms r_attrs r_blind) c
      (r_ms + c * ms) (r_blind + c * r)
      (List.zipWith (fun ra a => ra + c * a) r_attrs attrs)
      ([r_ms + c * ms] ++ List.zipWith (fun ra a => ra + c * a) r_attrs attrs
        ++ [r_blind + c * r]) ctx nonce attrs.length ?_ rfl ?_ ?_ ?_ hc.symm
  · simp only [List.length_append, List.length_cons, List.length_nil, hsalen]
    omega
  · have h1 : (([r_ms + c * ms] ++ List.zipWith (fun ra a => ra + c * a) r_attrs attrs
        ++ [r_blind + c * r]).drop 1)
        = List.zipWith (fun ra a => ra + c * a) r_attrs attrs ++ [r_blind + c * r] := rfl
    rw [h1, ← hsalen]
    exact List.take_left _ _
  · have h2 : [r_ms + c * ms] ++ List.zipWith (fun ra a => ra + c * a) r_attrs attrs
        ++ [r_blind + c * r]
        = ((r_ms + c * ms) :: List.zipWith (fun ra a => ra + c * a) r_attrs attrs)
            ++ [r_blind + c * r] := by simp
    rw [h2]
    exact List.getLastD_concat _ _ _
  · rw [Commitment.pedersen_linear gens c r_ms r_attrs r_blind ms attrs r hlen, hCval]
    abel

/-- C1 witness: the round-trip theorem applied over the group `ZMod q`
(a concrete `ZMod q`-module) with concrete generators, secrets, randomness
and context. -/
theorem schnorr_roundtrip_witness :
    ([6, 7] : List (ZMod Commitment.q)).length ≤ 2 ∧
      ([10, 11] : List (ZMod Commitment.q)).length
        = ([6, 7] : List (ZMod Commitment.q)).length ∧
      Commitment.createCommitment 2
          (⟨1, [2, 3], 4⟩ : Commitment.Generators (ZMod Commitment.q)) 5 [6, 7] 8
        = some (Commitment.pedersen ⟨1, [2, 3], 4⟩ 5 [6, 7] 8) ∧
      Commitment.verifyProof (⟨1, [2, 3], 4⟩ : Commitment.Generators (ZMod Commitment.q))
        (fun a b _ _ => a + b)
        (Commitment.generateProof ⟨1, [2, 3], 4⟩ (fun a b _ _ => a + b) 5 [6, 7] 8
          (Commitment.pedersen ⟨1, [2, 3], 4⟩ 5 [6, 7] 8) [1] 9 [10, 11] 12 [2])
        [1] ([6, 7] : List (ZMod Commitment.q)).length = true :=
  ⟨by decide, rfl, rfl,
    schnorr_roundtrip (ZMod Commitment.q) ⟨1, [2, 3], 4⟩ (fun a b _ _ => a + b)
      2 5 8 9 12 [6, 7] [10, 11] [1] [2]
      (Commitment.pedersen ⟨1, [2, 3], 4⟩ 5 [6, 7] 8) (by decide) rfl rfl⟩
